import Mathlib

/-
Verification of the data pipeline of the VM-NorthAmerica repository.

The dashboard (src/app.py) loads a CSV of tour listings into a pandas
DataFrame, normalizes it (load_data), filters it by user-selected
predicates (filtered_df), aggregates it into a city rollup
(tour_counts / city_stats / city_categories merged into city_metrics),
and ranks rows (sorted_tours).  The offline script
src/geocode_countries_filling_gaps.py rewrites the country column of
rows whose country is "Unknown".

This file gives a shallow embedding of those operations on Lean lists:

* A DataFrame is a `List` of records in row order.
* CSV floats are embedded as `Rat` (no float arithmetic occurs in the
  verified fragment beyond sums, means and comparisons); nullable
  columns are `Option`-valued.
* `pd.to_numeric(..., errors="coerce")` on the raw rating column is
  embedded by giving the raw column type `Option Rat`: `none` stands
  for a value that fails numeric coercion (e.g. the string "bad") or is
  missing, exactly the values the coercion turns into NaN.
* `groupby(["city","country"])` sorts group keys; group members keep
  their source order.  This is embedded as a map over the sorted
  deduplicated key list, each key selecting its rows by `List.filter`.
* `Series.mode()` returns the most frequent values in ascending sorted
  order, so `.mode().iloc[0]` is the smallest most-frequent value.
  String comparison is code-point lexicographic in Python; `lexLe`
  below is the same order on `String.data`, written so that the kernel
  can evaluate it (the builtin `String.ltb` does not reduce).
* The groupby aggregator `"first"` skips missing values: it returns the
  first non-null entry of the column within the group.
* `pd.merge(..., on=..., how="inner")` keeps the left frame's row
  order and, per left row, the matching right rows in right order:
  embedded as `List.flatMap` over the left frame with a `filter` of the
  right frame.
* `sort_values` is called with the default `kind='quicksort'`, which
  pandas documents as NOT stable: the program guarantees only that the
  result is a permutation of the input ordered by the key column, and
  leaves the relative order of equal-key rows unspecified.  The
  embedding must still pick one executable ordering; it uses
  `List.insertionSort` comparing only the key column.  No theorem below
  asserts anything about the order of equal-key rows; sorted-output
  theorems state only key-sortedness, permutation with the input, and
  counting facts, all of which hold for every ordering of equal keys.
  Concrete evaluations are confined to frames far below numpy's
  small-array threshold, where numpy's introsort runs its insertion-sort
  base case and therefore agrees with the embedding exactly.
* The try/except wrapper around the aggregation step maps a raised
  exception to a fatal error; it is embedded as `Except String`.  None
  of the wrapped operations raises in this fragment, so the embedded
  step is always `Except.ok`.
-/

namespace VMNA

/-- Kernel-computable lexicographic order on char lists by code point,
the order Python uses to compare strings (and hence the order pandas
uses to sort string group keys and mode values). -/
def lexLe : List Char → List Char → Bool
  | [], _ => true
  | _ :: _, [] => false
  | a :: as, b :: bs =>
    if a.toNat < b.toNat then true
    else if b.toNat < a.toNat then false
    else lexLe as bs

/-- Code-point lexicographic comparison of two strings. -/
def strLe (a b : String) : Bool := lexLe a.data b.data

/-- Propositional form of `strLe`, used as the sort relation for mode
candidates. -/
def strRel (a b : String) : Prop := strLe a b = true

instance : DecidableRel strRel := fun a b => by unfold strRel; infer_instance

instance : IsTotal String strRel :=
  ⟨fun a b => by
    unfold strRel strLe
    suffices h : ∀ as bs : List Char, lexLe as bs = true ∨ lexLe bs as = true from
      h a.data b.data
    intro as
    induction as with
    | nil => intro bs; left; rfl
    | cons x t ih =>
      intro bs
      cases bs with
      | nil => right; rfl
      | cons y u =>
        unfold lexLe
        rcases Nat.lt_trichotomy x.toNat y.toNat with h | h | h
        · left
          rw [if_pos h]
        · have h1 : ¬ x.toNat < y.toNat := by omega
          have h2 : ¬ y.toNat < x.toNat := by omega
          simp only [if_neg h1, if_neg h2]
          exact ih u
        · right
          rw [if_pos h]⟩

instance : IsTrans String strRel :=
  ⟨fun a b c hab hbc => by
    unfold strRel strLe at *
    revert hab hbc
    suffices h : ∀ as bs cs : List Char,
        lexLe as bs = true → lexLe bs cs = true → lexLe as cs = true from
      h a.data b.data c.data
    intro as
    induction as with
    | nil => intro bs cs _ _; rfl
    | cons x t ih =>
      intro bs cs h1 h2
      cases bs with
      | nil => simp [lexLe] at h1
      | cons y u =>
        cases cs with
        | nil => simp [lexLe] at h2
        | cons z v =>
          unfold lexLe at h1 h2 ⊢
          rcases Nat.lt_trichotomy x.toNat y.toNat with hab | hab | hab
          · rcases Nat.lt_trichotomy y.toNat z.toNat with hbc | hbc | hbc
            · rw [if_pos (show x.toNat < z.toNat by omega)]
            · rw [if_pos (show x.toNat < z.toNat by omega)]
            · rw [if_neg (show ¬ y.toNat < z.toNat by omega), if_pos hbc] at h2
              simp at h2
          · rcases Nat.lt_trichotomy y.toNat z.toNat with hbc | hbc | hbc
            · rw [if_pos (show x.toNat < z.toNat by omega)]
            · simp only [if_neg (show ¬ x.toNat < z.toNat by omega),
                if_neg (show ¬ z.toNat < x.toNat by omega)]
              simp only [if_neg (show ¬ x.toNat < y.toNat by omega),
                if_neg (show ¬ y.toNat < x.toNat by omega)] at h1
              simp only [if_neg (show ¬ y.toNat < z.toNat by omega),
                if_neg (show ¬ z.toNat < y.toNat by omega)] at h2
              exact ih u v h1 h2
            · rw [if_neg (show ¬ y.toNat < z.toNat by omega), if_pos hbc] at h2
              simp at h2
          · rw [if_neg (show ¬ x.toNat < y.toNat by omega), if_pos hab] at h1
            simp at h1⟩

/-- One raw CSV row of NorthAmericaViatorProducts_with_country.csv, with
the columns the pipeline touches.  `rating_score = none` stands for a
value that fails numeric coercion; `category = none` for a null
category; `latitude`/`longitude` are nullable floats. -/
structure RawRecord where
  title : String
  location : String
  country : String
  category : Option String
  rating_score : Option Rat
  rating_review_count : Int
  latitude : Option Rat
  longitude : Option Rat
deriving DecidableEq, Repr

/-- One normalized row as produced by `load_data`: `city` is the verbatim
location, `title` is renamed to `tour_name`, `rating_review_count` to
`total_reviews`, the rating is numeric with coercion failures replaced
by 0, and the category is a non-null string defaulting to
"Uncategorized". -/
structure TourRecord where
  tour_name : String
  city : String
  country : String
  category : String
  rating_score : Rat
  total_reviews : Int
  latitude : Option Rat
  longitude : Option Rat
deriving DecidableEq, Repr

/-- Per-row normalization of `load_data` (src/app.py lines 30-45):
city := location, rename columns, fill failed rating coercions with 0,
fill null categories with "Uncategorized". -/
def normalizeRecord (r : RawRecord) : TourRecord :=
  { tour_name := r.title
    city := r.location
    country := r.country
    category := r.category.getD "Uncategorized"
    rating_score := r.rating_score.getD 0
    total_reviews := r.rating_review_count
    latitude := r.latitude
    longitude := r.longitude }

/-- Embedding of `df.drop_duplicates(subset=["tour_name"], keep="first")`
(src/app.py line 48): keep a row iff its tour_name was not seen earlier;
`seen` accumulates the names already kept. -/
def dedupByName : List TourRecord → List String → List TourRecord
  | [], _ => []
  | r :: rs, seen =>
    if r.tour_name ∈ seen then dedupByName rs seen
    else r :: dedupByName rs (r.tour_name :: seen)

/-- Embedding of `load_data` (src/app.py lines 21-50): normalize each
row, then drop duplicate tour names keeping the first occurrence. -/
def load_data (raw : List RawRecord) : List TourRecord :=
  dedupByName (raw.map normalizeRecord) []

/-- The sidebar filter selections (src/app.py lines 66-107): the two
multiselects (which may contain the sentinel "All") and the two
inclusive slider ranges. -/
structure FilterSpec where
  selected_countries : List String
  selected_categories : List String
  review_range : Int × Int
  rating_range : Rat × Rat

/-- Embedding of the filter cascade (src/app.py lines 128-148): country
membership unless "All" is selected, category membership unless "All"
is selected, then the inclusive review-count range and the inclusive
rating range. -/
def filtered_df (spec : FilterSpec) (df : List TourRecord) : List TourRecord :=
  let f1 := if "All" ∈ spec.selected_countries then df
    else df.filter (fun r => decide (r.country ∈ spec.selected_countries))
  let f2 := if "All" ∈ spec.selected_categories then f1
    else f1.filter (fun r => decide (r.category ∈ spec.selected_categories))
  let f3 := f2.filter (fun r =>
    decide (spec.review_range.1 ≤ r.total_reviews) &&
    decide (r.total_reviews ≤ spec.review_range.2))
  f3.filter (fun r =>
    decide (spec.rating_range.1 ≤ r.rating_score) &&
    decide (r.rating_score ≤ spec.rating_range.2))

/-- The groupby key of a row: the (city, country) pair. -/
def keyOf (r : TourRecord) : String × String := (r.city, r.country)

/-- Comparison of (city, country) keys: by city, then by country;
pandas sorts group keys in this order. -/
def keyLe (a b : String × String) : Bool :=
  if a.1 = b.1 then strLe a.2 b.2 else strLe a.1 b.1

/-- Propositional form of `keyLe`. -/
def keyRel (a b : String × String) : Prop := keyLe a b = true

instance : DecidableRel keyRel := fun a b => by unfold keyRel; infer_instance

/-- The distinct (city, country) keys of a frame in ascending order:
the group keys of `groupby(["city","country"], sort=True)`. -/
def sortedKeys (df : List TourRecord) : List (String × String) :=
  List.insertionSort keyRel ((df.map keyOf).dedup)

/-- The members of one group, in source row order. -/
def groupRows (df : List TourRecord) (k : String × String) : List TourRecord :=
  df.filter (fun r => decide (keyOf r = k))

/-- The largest multiplicity among the values of a string column. -/
def maxCount (l : List String) : Nat :=
  (l.map (fun v => l.count v)).foldr max 0

/-- The values of maximal multiplicity (the set `Series.mode()` ranges
over), in arbitrary order. -/
def modeCands (l : List String) : List String :=
  l.dedup.filter (fun v => l.count v == maxCount l)

/-- Embedding of the lambda at src/app.py lines 174-176:
`x.mode().iloc[0] if not x.empty else "Uncategorized"`.  `mode()`
returns the most frequent values sorted ascending, so `iloc[0]` is the
smallest of them in code-point order. -/
def seriesMode (l : List String) : String :=
  match l with
  | [] => "Uncategorized"
  | _ :: _ => (List.insertionSort strRel (modeCands l)).headD "Uncategorized"

/-- One row of the count aggregate
`filtered_df.groupby(["city","country"]).size()` (src/app.py line 163). -/
structure TourCount where
  city : String
  country : String
  total_tours : Nat
deriving DecidableEq, Repr

/-- One row of the `.agg` aggregate (src/app.py lines 166-171): summed
reviews, mean rating, and the `"first"` aggregator for the coordinates,
which returns the first non-null value of the column in the group. -/
structure CityStat where
  city : String
  country : String
  total_reviews : Int
  rating_score : Rat
  latitude : Option Rat
  longitude : Option Rat
deriving DecidableEq, Repr

/-- One row of the modal-category aggregate (src/app.py lines 174-176). -/
structure CityCat where
  city : String
  country : String
  category : String
deriving DecidableEq, Repr

/-- One row of the merged city rollup `city_metrics`
(src/app.py lines 179-188). -/
structure CityMetric where
  city : String
  country : String
  total_tours : Nat
  total_reviews : Int
  rating_score : Rat
  latitude : Option Rat
  longitude : Option Rat
  category : String
deriving DecidableEq, Repr

/-- The count-aggregate row of one group. -/
def tcAt (df : List TourRecord) (k : String × String) : TourCount :=
  { city := k.1, country := k.2, total_tours := (groupRows df k).length }

/-- The `.agg` row of one group: sum, mean (groups are non-empty by
construction, so the division is by a positive count), and first
non-null coordinates. -/
def csAt (df : List TourRecord) (k : String × String) : CityStat :=
  { city := k.1
    country := k.2
    total_reviews := ((groupRows df k).map (fun r => r.total_reviews)).sum
    rating_score :=
      ((groupRows df k).map (fun r => r.rating_score)).sum /
        ((groupRows df k).length : Rat)
    latitude := ((groupRows df k).filterMap (fun r => r.latitude)).head?
    longitude := ((groupRows df k).filterMap (fun r => r.longitude)).head? }

/-- The modal-category row of one group. -/
def ccAt (df : List TourRecord) (k : String × String) : CityCat :=
  { city := k.1, country := k.2
    category := seriesMode ((groupRows df k).map (fun r => r.category)) }

/-- Embedding of `tour_counts` (src/app.py line 163). -/
def tour_counts (df : List TourRecord) : List TourCount :=
  (sortedKeys df).map (tcAt df)

/-- Embedding of `city_stats` (src/app.py lines 166-171). -/
def city_stats (df : List TourRecord) : List CityStat :=
  (sortedKeys df).map (csAt df)

/-- Embedding of `city_categories` (src/app.py lines 174-176). -/
def city_categories (df : List TourRecord) : List CityCat :=
  (sortedKeys df).map (ccAt df)

/-- Column concatenation of a count row and a stats row sharing a key. -/
def combineTS (t : TourCount) (s : CityStat) : CityMetric :=
  { city := t.city, country := t.country, total_tours := t.total_tours
    total_reviews := s.total_reviews, rating_score := s.rating_score
    latitude := s.latitude, longitude := s.longitude
    category := "Uncategorized" }

/-- Overwrite of the category column from a category row sharing a key. -/
def combinePC (p : CityMetric) (c : CityCat) : CityMetric :=
  { p with category := c.category }

/-- Embedding of `tour_counts.merge(city_stats, on=["city","country"])`
(src/app.py line 179): an inner join keeping left row order and, per
left row, right matches in right order. -/
def mergeTS (tc : List TourCount) (cs : List CityStat) : List CityMetric :=
  tc.flatMap (fun t =>
    (cs.filter (fun s => decide (s.city = t.city) && decide (s.country = t.country))).map
      (combineTS t))

/-- Embedding of the second merge `...merge(city_categories, on=["city","country"])`
(src/app.py line 180). -/
def mergePC (pm : List CityMetric) (cc : List CityCat) : List CityMetric :=
  pm.flatMap (fun p =>
    (cc.filter (fun c => decide (c.city = p.city) && decide (c.country = p.country))).map
      (combinePC p))

/-- Embedding of the `fillna` at src/app.py lines 183-188.  Every listed
column (total_tours, total_reviews, rating_score, category) has a total
type in this embedding, so there is no missing value to fill and the
operation is the identity. -/
def fillnaCityMetrics (l : List CityMetric) : List CityMetric := l

/-- The merge portion of the aggregation step, as a function of the
three partial aggregate tables. -/
def city_metrics_merge (tc : List TourCount) (cs : List CityStat)
    (cc : List CityCat) : List CityMetric :=
  fillnaCityMetrics (mergePC (mergeTS tc cs) cc)

/-- The merge portion inside the try/except wrapper (src/app.py lines
161-192): a raised exception would surface as `Except.error`, but
`pd.merge` does not raise on a key mismatch — it silently returns the
inner join — so the step is always `Except.ok`. -/
def merge_step (tc : List TourCount) (cs : List CityStat)
    (cc : List CityCat) : Except String (List CityMetric) :=
  Except.ok (city_metrics_merge tc cs cc)

/-- Embedding of `city_metrics` (src/app.py lines 161-188). -/
def city_metrics (df : List TourRecord) : List CityMetric :=
  city_metrics_merge (tour_counts df) (city_stats df) (city_categories df)

/-- The whole aggregation step with its defensive wrapper. -/
def city_metrics_step (df : List TourRecord) : Except String (List CityMetric) :=
  merge_step (tour_counts df) (city_stats df) (city_categories df)

/-- The fully merged rollup row of one group, used to state what the
merge produces. -/
def metricAt (df : List TourRecord) (k : String × String) : CityMetric :=
  combinePC (combineTS (tcAt df k) (csAt df k)) (ccAt df k)

/-- Sort relation of `city_metrics.sort_values("total_tours", ascending=b)`
(src/app.py lines 274-276): the comparison the program sorts by.  It
compares only the key column; the program does not specify the
relative order of equal-key rows (default quicksort, not stable). -/
def cmRel (asc : Bool) (a b : CityMetric) : Prop :=
  if asc then a.total_tours ≤ b.total_tours else b.total_tours ≤ a.total_tours

instance (asc : Bool) : DecidableRel (cmRel asc) := fun a b => by
  unfold cmRel; infer_instance

/-- Embedding of `city_ordered = city_metrics.sort_values("total_tours",
ascending=...)[["city","total_tours"]]` (src/app.py lines 274-276). -/
def city_ordered (asc : Bool) (df : List TourRecord) : List (String × Nat) :=
  (List.insertionSort (cmRel asc) (city_metrics df)).map
    (fun m => (m.city, m.total_tours))

/-- Sort relation of the final `sort_values("total_tours", ...)` on the
merged rows (src/app.py line 279). -/
def pairRel (asc : Bool) (p q : TourRecord × Nat) : Prop :=
  if asc then p.2 ≤ q.2 else q.2 ≤ p.2

instance (asc : Bool) : DecidableRel (pairRel asc) := fun p q => by
  unfold pairRel; infer_instance

instance (asc : Bool) : IsTotal (TourRecord × Nat) (pairRel asc) :=
  ⟨fun p q => by cases asc <;> simp [pairRel] <;> omega⟩

instance (asc : Bool) : IsTrans (TourRecord × Nat) (pairRel asc) :=
  ⟨fun p q s h1 h2 => by
    cases asc <;> simp [pairRel] at h1 h2 ⊢ <;> omega⟩

/-- Embedding of `pd.merge(filtered_df, city_ordered, on="city")`
(src/app.py lines 277-279): the join key is the city column ALONE, not
the (city, country) pair. -/
def mergeOnCity (left : List TourRecord) (right : List (String × Nat)) :
    List (TourRecord × Nat) :=
  left.flatMap (fun r =>
    (right.filter (fun e => decide (e.1 = r.city))).map (fun e => (r, e.2)))

/-- Embedding of `sorted_tours` in the "Total Tours" sort branch
(src/app.py lines 273-279): join every filtered row to the rollup rows
sharing its city name, then sort by the annotated total_tours.  The
program's `sort_values` (default quicksort) guarantees only a
key-ordered permutation of the join result; `List.insertionSort` here
realizes one such permutation, and the theorems below assert only the
properties shared by all of them (key-sortedness, permutation, counts),
never the model's particular order of equal-key rows. -/
def sorted_tours_total (asc : Bool) (df : List TourRecord) :
    List (TourRecord × Nat) :=
  List.insertionSort (pairRel asc) (mergeOnCity df (city_ordered asc df))

/-- The rollup total of a (city, country) key, looked up in the merged
city rollup. -/
def placeTotal (df : List TourRecord) (k : String × String) : Option Nat :=
  (((city_metrics df).filter
      (fun m => decide (m.city = k.1) && decide (m.country = k.2))).head?).map
    (fun m => m.total_tours)

/-- One CSV row of the gap-filler script
(src/geocode_countries_filling_gaps.py): the country column, the
nullable coordinate columns, and `payload` standing for all remaining
columns, which the script never touches. -/
structure GeoRow where
  country : String
  latitude : Option Rat
  longitude : Option Rat
  payload : String
deriving DecidableEq, Repr

/-- Row update of the gap-filler loop (src/geocode_countries_filling_gaps.py
lines 31-67).  `geo lat lon` is the external reverse geocoder: `some c`
when the lookup yields an address country `c`, `none` when the lookup
fails, raises, or has no address — every such failure is converted to
the sentinel "Unknown".  Rows whose country is not exactly "Unknown"
are never selected; rows with a missing coordinate are skipped by the
`continue`. -/
def updateRow (geo : Rat → Rat → Option String) (r : GeoRow) : GeoRow :=
  if r.country = "Unknown" then
    match r.latitude, r.longitude with
    | some lat, some lon => { r with country := (geo lat lon).getD "Unknown" }
    | _, _ => r
  else r

/-- Embedding of the gap-filler `main` (src/geocode_countries_filling_gaps.py
lines 25-71): the loop writes back with `df.at[i, "country"]`, an
index-preserving per-row update, so the written frame is the row-wise
map of `updateRow` over the input frame. -/
def gap_filler_main (geo : Rat → Rat → Option String) (df : List GeoRow) :
    List GeoRow :=
  df.map (updateRow geo)

/-- The rollup total of the place a row belongs to: the size of the
row's (city, country) group. -/
def rowTotal (df : List TourRecord) (r : TourRecord) : Nat :=
  (groupRows df (keyOf r)).length

/-- The category column of one group, in source row order. -/
def groupCategories (df : List TourRecord) (k : String × String) : List String :=
  (groupRows df k).map (fun r => r.category)

/-- Shorthand for building concrete tour rows in the test frames below. -/
def mkRow (name city country cat : String) (rev : Int) (rs : Rat)
    (lat lon : Option Rat) : TourRecord :=
  { tour_name := name, city := city, country := country, category := cat
    rating_score := rs, total_reviews := rev, latitude := lat, longitude := lon }

/-- Test frame for the modal-category claim: one (Paris, FR) group whose
two rows have tied categories "Tour" (first in row order) and "Museum"
(lexicographically smaller). -/
def c3x : List TourRecord :=
  [ mkRow "t1" "Paris" "FR" "Tour" 0 0 none none
  , mkRow "t2" "Paris" "FR" "Museum" 0 0 none none ]

/-- Row of the place ("X", "CA") in the ranking test frame. -/
def c4rA : TourRecord := mkRow "a" "X" "CA" "Tour" 0 0 none none

/-- First row of the place ("X", "US") in the ranking test frame. -/
def c4rB1 : TourRecord := mkRow "b1" "X" "US" "Tour" 0 0 none none

/-- Second row of the place ("X", "US") in the ranking test frame. -/
def c4rB2 : TourRecord := mkRow "b2" "X" "US" "Tour" 0 0 none none

/-- Test frame for the ranking claim: two distinct places, ("X", "CA")
with one row and ("X", "US") with two rows, sharing the city string
"X". -/
def c4x : List TourRecord := [c4rA, c4rB1, c4rB2]

/-- Collision-free test frame for the amended ranking claim: city "A"
has two rows, city "B" has one, and each city belongs to a single
country. -/
def c4w : List TourRecord :=
  [ mkRow "u1" "A" "US" "Tour" 0 0 none none
  , mkRow "u2" "B" "CA" "Tour" 0 0 none none
  , mkRow "u3" "A" "US" "Tour" 0 0 none none ]

/-- First row of the coordinate test group: missing coordinates. -/
def c5r1 : TourRecord := mkRow "p1" "P" "FR" "Tour" 0 0 none none

/-- Second row of the coordinate test group: present coordinates. -/
def c5r2 : TourRecord := mkRow "p2" "P" "FR" "Tour" 0 0 (some 10) (some 20)

/-- Test frame for the coordinate claim: one group whose first row has
missing coordinates and whose second row has coordinates. -/
def c5x : List TourRecord := [c5r1, c5r2]

/-- Test frame for the duplicate-join claim: two distinct places
sharing the city string "Y". -/
def c10x : List TourRecord :=
  [ mkRow "s1" "Y" "CA" "Tour" 0 0 none none
  , mkRow "s2" "Y" "US" "Tour" 0 0 none none ]

/-- Test frame for the two-row-per-key rollup witness. -/
def c2x : List TourRecord :=
  [ mkRow "w1" "A" "US" "Tour" 0 0 none none
  , mkRow "w2" "B" "CA" "Tour" 0 0 none none
  , mkRow "w3" "A" "US" "Museum" 0 0 none none ]

/-- Raw row of the loader normalization example in the spec: a rating
that fails numeric coercion and a null category. -/
def rawA : RawRecord :=
  { title := "A", location := "X", country := "US", category := none
    rating_score := none, rating_review_count := 5, latitude := none
    longitude := none }

/-- A count aggregate with one key, used to feed the merge a key that
the other aggregates do not contain. -/
def tc0 : List TourCount := [{ city := "X", country := "US", total_tours := 1 }]

/-- A constant reverse geocoder used to instantiate the gap-filler. -/
def geoConst : Rat → Rat → Option String := fun _ _ => some "Canada"

/-- Gap-filler test row whose country is already known. -/
def g1 : GeoRow :=
  { country := "Mexico", latitude := some 1, longitude := some 2, payload := "p1" }

/-- Gap-filler test row with unknown country but missing latitude. -/
def g2 : GeoRow :=
  { country := "Unknown", latitude := none, longitude := some 2, payload := "p2" }

/-- Gap-filler test row with unknown country and full coordinates. -/
def g3 : GeoRow :=
  { country := "Unknown", latitude := some 1, longitude := some 2, payload := "p3" }

/-- Gap-filler test frame. -/
def gdf : List GeoRow := [g1, g2, g3]

/-- C1: a row is in the filtered output iff it is in the loaded frame
and satisfies every active predicate: country membership unless "All"
is among the selections, category membership unless "All" is selected,
and the two inclusive ranges. -/
theorem claim1_filter_iff (spec : FilterSpec) (df : List TourRecord) (r : TourRecord) :
    r ∈ filtered_df spec df ↔
      r ∈ df ∧
      ("All" ∈ spec.selected_countries ∨ r.country ∈ spec.selected_countries) ∧
      ("All" ∈ spec.selected_categories ∨ r.category ∈ spec.selected_categories) ∧
      (spec.review_range.1 ≤ r.total_reviews ∧ r.total_reviews ≤ spec.review_range.2) ∧
      (spec.rating_range.1 ≤ r.rating_score ∧ r.rating_score ≤ spec.rating_range.2) := by
  unfold filtered_df
  by_cases h1 : "All" ∈ spec.selected_countries <;>
    by_cases h2 : "All" ∈ spec.selected_categories <;>
      simp [h1, h2, List.mem_filter, decide_eq_true_iff, Bool.and_eq_true] <;>
        tauto

/-- The deduplication pass is a sublist of its input (it only drops
rows and keeps order). -/
theorem dedupByName_sublist (l : List TourRecord) (seen : List String) :
    (dedupByName l seen).Sublist l := by
  induction l generalizing seen with
  | nil => simp [dedupByName]
  | cons r rs ih =>
    unfold dedupByName
    by_cases h : r.tour_name ∈ seen
    · rw [if_pos h]
      exact (ih seen).cons r
    · rw [if_neg h]
      exact List.cons_sublist_cons.mpr (ih _)

/-- Per-name characterization of the deduplication pass: for a name not
yet seen, the output keeps exactly the first row carrying that name;
for a seen name, it keeps none. -/
theorem dedupByName_filter (l : List TourRecord) (seen : List String) (n : String) :
    (dedupByName l seen).filter (fun t => decide (t.tour_name = n)) =
      if n ∈ seen then []
      else (l.filter (fun t => decide (t.tour_name = n))).take 1 := by
  induction l generalizing seen with
  | nil => simp [dedupByName]
  | cons r rs ih =>
    unfold dedupByName
    by_cases hseen : r.tour_name ∈ seen
    · rw [if_pos hseen, ih]
      by_cases hn : n ∈ seen
      · simp [hn]
      · have hr : ¬ (r.tour_name = n) := fun h => hn (h ▸ hseen)
        simp [hn, List.filter_cons, hr]
    · rw [if_neg hseen]
      by_cases hrn : r.tour_name = n
      · subst hrn
        simp [List.filter_cons, ih, hseen]
      · have hnr : ¬ (n = r.tour_name) := fun h => hrn h.symm
        simp [List.filter_cons, hrn, hnr, ih]

/-- C7: the loader output is a sublist of the normalized input rows
(rows kept unchanged, in order), and for every tour name it keeps
exactly the first normalized row carrying that name — so at most one
row per distinct tour_name survives. -/
theorem claim7_dedup (raw : List RawRecord) :
    (load_data raw).Sublist (raw.map normalizeRecord) ∧
    ∀ n : String,
      (load_data raw).filter (fun t => decide (t.tour_name = n)) =
        ((raw.map normalizeRecord).filter (fun t => decide (t.tour_name = n))).take 1 := by
  refine ⟨dedupByName_sublist _ _, fun n => ?_⟩
  rw [load_data, dedupByName_filter]
  simp

/-- C8: a raw row whose rating fails numeric coercion and whose
category is null loads (without any error) into a row with rating 0
and category "Uncategorized", all other fields carried over. -/
theorem claim8_normalize (r : RawRecord) (hrs : r.rating_score = none)
    (hc : r.category = none) :
    load_data [r] =
      [{ tour_name := r.title, city := r.location, country := r.country
         category := "Uncategorized", rating_score := 0
         total_reviews := r.rating_review_count
         latitude := r.latitude, longitude := r.longitude }] := by
  simp [load_data, dedupByName, normalizeRecord, hrs, hc]

/-- Witness for C8 at the spec's example row. -/
theorem claim8_witness :
    load_data [rawA] =
      [{ tour_name := "A", city := "X", country := "US"
         category := "Uncategorized", rating_score := 0, total_reviews := 5
         latitude := none, longitude := none }] :=
  claim8_normalize rawA rfl rfl

/-- A key is a sorted group key iff it occurs in the frame. -/
theorem mem_sortedKeys {df : List TourRecord} {k : String × String} :
    k ∈ sortedKeys df ↔ k ∈ df.map keyOf := by
  unfold sortedKeys
  rw [(List.perm_insertionSort keyRel _).mem_iff, List.mem_dedup]

/-- The sorted group keys are pairwise distinct. -/
theorem nodup_sortedKeys (df : List TourRecord) : (sortedKeys df).Nodup := by
  unfold sortedKeys
  exact ((List.perm_insertionSort keyRel _).nodup_iff).mpr (List.nodup_dedup _)

/-- The size of a group is the multiplicity of its key in the frame's
key column. -/
theorem length_groupRows (df : List TourRecord) (k : String × String) :
    (groupRows df k).length =
      List.countP (fun x => decide (x = k)) (df.map keyOf) := by
  unfold groupRows
  rw [← List.countP_eq_length_filter, List.countP_map]
  exact List.countP_congr (fun r _ => by simp [Function.comp])

/-- Summing each distinct key's multiplicity recovers the list length. -/
theorem sum_countP_dedup (l : List (String × String)) :
    ((l.dedup).map (fun k => List.countP (fun x => decide (x = k)) l)).sum =
      l.length := by
  have h := List.sum_map_count_dedup_eq_length l
  rw [← h]
  apply congrArg
  apply List.map_congr_left
  intro k _
  exact (@List.count_eq_countP _ instBEqOfDecidableEq k l).symm

/-- A flatMap whose per-element lists are singletons is a map. -/
theorem flatMap_eq_map {α β : Type} (l : List α) (h : α → List β) (u : α → β)
    (hu : ∀ x ∈ l, h x = [u x]) : l.flatMap h = l.map u := by
  induction l with
  | nil => rfl
  | cons a t ih =>
    rw [List.flatMap_cons, hu a (List.mem_cons_self a t), List.map_cons,
      ih (fun x hx => hu x (List.mem_cons_of_mem _ hx))]
    rfl

/-- A flatMap over a mapped list whose per-element lists are singletons
is a map over the original list. -/
theorem flatMap_map_eq_map {α β γ : Type} (l : List α) (f : α → β)
    (h : β → List γ) (u : α → γ) (hu : ∀ x ∈ l, h (f x) = [u x]) :
    (l.map f).flatMap h = l.map u := by
  induction l with
  | nil => rfl
  | cons a t ih =>
    rw [List.map_cons, List.flatMap_cons, hu a (List.mem_cons_self a t),
      List.map_cons, ih (fun x hx => hu x (List.mem_cons_of_mem _ hx))]
    rfl

/-- Filtering a keyed table (one row per key, keys distinct) for one
present key yields exactly that key's row. -/
theorem filter_map_keys_eq {β : Type} (keys : List (String × String))
    (g : (String × String) → β) (p : β → Bool) (k : String × String)
    (hp : ∀ x, p (g x) = true ↔ x = k)
    (hnd : keys.Nodup) (hk : k ∈ keys) :
    (keys.map g).filter p = [g k] := by
  induction keys with
  | nil => cases hk
  | cons a t ih =>
    rw [List.map_cons, List.filter_cons]
    rcases List.nodup_cons.mp hnd with ⟨ha, ht⟩
    by_cases hak : a = k
    · rw [if_pos ((hp a).mpr hak)]
      have hnil : (t.map g).filter p = [] := by
        rw [List.filter_eq_nil_iff]
        intro b hb
        rcases List.mem_map.mp hb with ⟨x, hx, rfl⟩
        rw [hp x]
        rintro rfl
        exact ha (by rw [hak]; exact hx)
      rw [hnil, hak]
    · have hpa : ¬ (p (g a) = true) := by
        rw [hp a]
        exact hak
      rw [if_neg hpa]
      have hk' : k ∈ t := by
        rcases List.mem_cons.mp hk with h | h
        · exact absurd h.symm hak
        · exact h
      exact ih ht hk'

/-- The first merge pairs each count row with exactly its key's stats
row. -/
theorem mergeTS_eq (df : List TourRecord) :
    mergeTS (tour_counts df) (city_stats df) =
      (sortedKeys df).map (fun k => combineTS (tcAt df k) (csAt df k)) := by
  unfold mergeTS tour_counts
  apply flatMap_map_eq_map
  intro k hk
  have hfil : (city_stats df).filter
      (fun s => decide (s.city = (tcAt df k).city) &&
        decide (s.country = (tcAt df k).country)) = [csAt df k] := by
    unfold city_stats
    refine filter_map_keys_eq _ (csAt df) _ k ?_ (nodup_sortedKeys df) hk
    intro x
    simp [csAt, tcAt, Bool.and_eq_true, Prod.ext_iff]
  rw [hfil]
  rfl

/-- The merged rollup is exactly the keyed table of fully aggregated
rows, one per sorted group key. -/
theorem city_metrics_eq (df : List TourRecord) :
    city_metrics df = (sortedKeys df).map (metricAt df) := by
  unfold city_metrics city_metrics_merge fillnaCityMetrics
  rw [mergeTS_eq]
  unfold mergePC
  apply flatMap_map_eq_map
  intro k hk
  have hfil : (city_categories df).filter
      (fun c => decide (c.city = (combineTS (tcAt df k) (csAt df k)).city) &&
        decide (c.country = (combineTS (tcAt df k) (csAt df k)).country)) =
      [ccAt df k] := by
    unfold city_categories
    refine filter_map_keys_eq _ (ccAt df) _ k ?_ (nodup_sortedKeys df) hk
    intro x
    simp [ccAt, combineTS, tcAt, Bool.and_eq_true, Prod.ext_iff]
  rw [hfil]
  rfl

/-- C2: the merged City rollup has exactly one row per distinct
(city, country) key of the filtered frame, that row's total_tours is
the number of rows sharing the key, and the rollup totals sum to the
frame's row count. -/
theorem claim2_rollup (df : List TourRecord) :
    ((city_metrics df).map (fun m => (m.city, m.country))).Nodup ∧
    (∀ k : String × String,
      k ∈ (city_metrics df).map (fun m => (m.city, m.country)) ↔ k ∈ df.map keyOf) ∧
    (∀ m ∈ city_metrics df, m.total_tours = (groupRows df (m.city, m.country)).length) ∧
    ((city_metrics df).map (fun m => m.total_tours)).sum = df.length := by
  have hkeys : (city_metrics df).map (fun m => (m.city, m.country)) = sortedKeys df := by
    rw [city_metrics_eq, List.map_map]
    have hcomp : ((fun m : CityMetric => (m.city, m.country)) ∘ metricAt df) = id :=
      funext fun k => rfl
    rw [hcomp, List.map_id]
  refine ⟨?_, ?_, ?_, ?_⟩
  · rw [hkeys]
    exact nodup_sortedKeys df
  · intro k
    rw [hkeys]
    exact mem_sortedKeys
  · intro m hm
    rw [city_metrics_eq] at hm
    rcases List.mem_map.mp hm with ⟨k, _, rfl⟩
    rfl
  · rw [city_metrics_eq, List.map_map]
    have hcomp : ((fun m : CityMetric => m.total_tours) ∘ metricAt df) =
        fun k => (groupRows df k).length := funext fun k => rfl
    rw [hcomp]
    have hperm : (sortedKeys df).Perm ((df.map keyOf).dedup) :=
      List.perm_insertionSort _ _
    calc ((sortedKeys df).map fun k => (groupRows df k).length).sum
        = (((df.map keyOf).dedup).map fun k => (groupRows df k).length).sum :=
          (hperm.map _).sum_eq
      _ = (((df.map keyOf).dedup).map fun k =>
            List.countP (fun x => decide (x = k)) (df.map keyOf)).sum := by
          exact congrArg _ (List.map_congr_left (fun k _ => length_groupRows df k))
      _ = (df.map keyOf).length := sum_countP_dedup _
      _ = df.length := List.length_map _ _

/-- Witness for C2 at a concrete frame: the ("A", "US") rollup row's
total equals its group size. -/
theorem claim2_witness :
    (metricAt c2x ("A", "US")).total_tours = (groupRows c2x ("A", "US")).length := by
  have hm : metricAt c2x ("A", "US") ∈ city_metrics c2x := by
    rw [city_metrics_eq]
    exact List.mem_map_of_mem _ (by decide)
  exact (claim2_rollup c2x).2.2.1 _ hm

/-- C6 counterexample: merging partial aggregates whose key sets
disagree changes the row count (here 1 count row, empty stats and
category tables, merged result empty) yet the defensively wrapped step
returns a successful partial result, not an error. -/
theorem claim6_counterexample :
    (city_metrics_merge tc0 [] []).length ≠ tc0.length ∧
    merge_step tc0 [] [] = Except.ok [] :=
  ⟨by decide, rfl⟩

/-- C6 amended: the merge is an unchecked inner join, so the wrapped
aggregation step always returns Except.ok; no row-count mismatch can
arise in the pipeline because all three partial aggregates are grouped
from the same filtered frame, making the merged row count equal the
count-aggregate's row count. -/
theorem claim6_amended (df : List TourRecord) :
    city_metrics_step df = Except.ok (city_metrics df) ∧
    (city_metrics df).length = (tour_counts df).length := by
  refine ⟨rfl, ?_⟩
  rw [city_metrics_eq]
  unfold tour_counts
  simp

/-- Reflexivity of the code-point order. -/
theorem lexLe_refl (as : List Char) : lexLe as as = true := by
  induction as with
  | nil => rfl
  | cons a t ih =>
    unfold lexLe
    rw [if_neg (Nat.lt_irrefl _), if_neg (Nat.lt_irrefl _)]
    exact ih

/-- Every member of a list of naturals is bounded by the foldr of max. -/
theorem le_foldr_max {a : Nat} {l : List Nat} (h : a ∈ l) : a ≤ l.foldr max 0 := by
  induction l with
  | nil => cases h
  | cons b t ih =>
    rw [List.foldr_cons]
    rcases List.mem_cons.mp h with rfl | hm
    · exact le_max_left _ _
    · exact le_trans (ih hm) (le_max_right _ _)

/-- The foldr of max over naturals is zero or a member. -/
theorem foldr_max_mem (l : List Nat) : l.foldr max 0 = 0 ∨ l.foldr max 0 ∈ l := by
  induction l with
  | nil => left; rfl
  | cons b t ih =>
    rw [List.foldr_cons]
    rcases max_choice b (t.foldr max 0) with h | h
    · right
      rw [h]
      exact List.mem_cons_self _ _
    · rw [h]
      rcases ih with h0 | hm
      · left; exact h0
      · right; exact List.mem_cons_of_mem _ hm

/-- No value occurs more often than the maximal multiplicity. -/
theorem count_le_maxCount (l : List String) (v : String) (hv : v ∈ l) :
    l.count v ≤ maxCount l := by
  unfold maxCount
  exact le_foldr_max (List.mem_map_of_mem _ hv)

/-- A non-empty column has a value attaining the maximal multiplicity. -/
theorem maxCount_mem (l : List String) (h : l ≠ []) :
    ∃ v ∈ l, l.count v = maxCount l := by
  rcases foldr_max_mem (l.map fun v => l.count v) with h0 | hm
  · cases l with
    | nil => exact absurd rfl h
    | cons a t =>
      exfalso
      have h1 : 0 < (a :: t).count a := List.count_pos_iff.mpr (List.mem_cons_self _ _)
      have h2 : (a :: t).count a ≤ maxCount (a :: t) :=
        count_le_maxCount _ _ (List.mem_cons_self _ _)
      unfold maxCount at h2
      omega
  · rcases List.mem_map.mp hm with ⟨v, hv, heq⟩
    exact ⟨v, hv, heq⟩

/-- Membership in the mode candidates. -/
theorem mem_modeCands {l : List String} {v : String} :
    v ∈ modeCands l ↔ v ∈ l ∧ l.count v = maxCount l := by
  unfold modeCands
  rw [List.mem_filter, List.mem_dedup]
  simp

/-- Characterization of the embedded `mode().iloc[0]` on a non-empty
column: it is a member, it attains the maximal multiplicity, and it is
the code-point-least among the values attaining it. -/
theorem seriesMode_spec (l : List String) (h : l ≠ []) :
    seriesMode l ∈ l ∧ l.count (seriesMode l) = maxCount l ∧
      ∀ v ∈ l, l.count v = maxCount l → strLe (seriesMode l) v = true := by
  have hcands : modeCands l ≠ [] := by
    rcases maxCount_mem l h with ⟨v, hv, hveq⟩
    exact List.ne_nil_of_mem (mem_modeCands.mpr ⟨hv, hveq⟩)
  have hperm : (List.insertionSort strRel (modeCands l)).Perm (modeCands l) :=
    List.perm_insertionSort _ _
  obtain ⟨m, s, hs⟩ : ∃ m s, List.insertionSort strRel (modeCands l) = m :: s := by
    cases hsort : List.insertionSort strRel (modeCands l) with
    | nil =>
      exfalso
      apply hcands
      have hlen := hperm.length_eq
      rw [hsort] at hlen
      exact List.length_eq_zero.mp hlen.symm
    | cons m s => exact ⟨m, s, rfl⟩
  have hmode : seriesMode l = m := by
    cases l with
    | nil => exact absurd rfl h
    | cons a t =>
      unfold seriesMode
      rw [hs]
      rfl
  have hmem : m ∈ modeCands l := hperm.mem_iff.mp (hs ▸ List.mem_cons_self m s)
  rcases mem_modeCands.mp hmem with ⟨hml, hmc⟩
  have hsorted : List.Sorted strRel (m :: s) :=
    hs ▸ List.sorted_insertionSort strRel (modeCands l)
  rw [hmode]
  refine ⟨hml, hmc, ?_⟩
  intro v hv hvc
  have hvcand : v ∈ modeCands l := mem_modeCands.mpr ⟨hv, hvc⟩
  have hvs : v ∈ m :: s := hs ▸ hperm.mem_iff.mpr hvcand
  rcases List.mem_cons.mp hvs with rfl | hvs'
  · unfold strLe
    exact lexLe_refl _
  · exact (List.sorted_cons.mp hsorted).1 v hvs'

/-- C3 counterexample: in a (Paris, FR) group whose rows carry the tied
categories "Tour" (first in row order) then "Museum", the rollup
category is "Museum" — the lexicographically smaller tied value — not
the first-encountered "Tour". -/
theorem claim3_counterexample :
    city_categories c3x = [{ city := "Paris", country := "FR", category := "Museum" }] ∧
    c3x.map (fun r => r.category) = ["Tour", "Museum"] ∧
    (c3x.map (fun r => r.category)).count "Tour" =
      (c3x.map (fun r => r.category)).count "Museum" := by
  decide

/-- C3 amended: every rollup category row carries a most frequent
category of its group's category column; among tied most frequent
values it is the least in code-point order (pandas mode() returns its
values sorted), not the first encountered. -/
theorem claim3_amended (df : List TourRecord) (c : CityCat)
    (hc : c ∈ city_categories df) :
    c.category ∈ groupCategories df (c.city, c.country) ∧
    (∀ v ∈ groupCategories df (c.city, c.country),
      (groupCategories df (c.city, c.country)).count v ≤
        (groupCategories df (c.city, c.country)).count c.category) ∧
    (∀ v ∈ groupCategories df (c.city, c.country),
      (groupCategories df (c.city, c.country)).count v =
        (groupCategories df (c.city, c.country)).count c.category →
      strLe c.category v = true) := by
  unfold city_categories at hc
  rcases List.mem_map.mp hc with ⟨k, hk, rfl⟩
  simp only [ccAt, Prod.mk.eta]
  unfold groupCategories
  have hgne : (groupRows df k).map (fun r => r.category) ≠ [] := by
    rcases List.mem_map.mp (mem_sortedKeys.mp hk) with ⟨r, hr, hrk⟩
    have hrg : r ∈ groupRows df k := by
      unfold groupRows
      rw [List.mem_filter]
      exact ⟨hr, by simp [hrk]⟩
    exact List.ne_nil_of_mem (List.mem_map_of_mem _ hrg)
  have hspec := seriesMode_spec ((groupRows df k).map (fun r => r.category)) hgne
  refine ⟨hspec.1, ?_, ?_⟩
  · intro v hv
    rw [hspec.2.1]
    exact count_le_maxCount _ v hv
  · intro v hv hvc
    exact hspec.2.2 v hv (hvc.trans hspec.2.1)

/-- Witness for the amended C3 at the tied example: the count of the
first-encountered "Tour" does not exceed the count of the reported
"Museum". -/
theorem claim3_witness :
    (groupCategories c3x ("Paris", "FR")).count "Tour" ≤
      (groupCategories c3x ("Paris", "FR")).count "Museum" := by
  have h := claim3_amended c3x
    { city := "Paris", country := "FR", category := "Museum" } (by decide)
  exact h.2.1 "Tour" (by decide)

/-- C5 counterexample: in a group whose first row has missing
coordinates and whose second row has coordinates (10, 20), the rollup
coordinates are (10, 20) — the first NON-NULL values — not the first
row's missing values. -/
theorem claim5_counterexample :
    (city_stats c5x).map (fun s => (s.city, s.country, s.latitude, s.longitude)) =
      [("P", "FR", some (10 : Rat), some (20 : Rat))] ∧
    (groupRows c5x ("P", "FR")).head? = some c5r1 ∧
    c5r1.latitude = none ∧ c5r1.longitude = none := by
  decide

/-- C5 amended: every stats row's latitude (resp. longitude) is the
first non-missing latitude (resp. longitude) of its non-empty group in
group iteration order; if all are missing the result is missing. -/
theorem claim5_amended (df : List TourRecord) (s : CityStat)
    (hs : s ∈ city_stats df) :
    groupRows df (s.city, s.country) ≠ [] ∧
    s.latitude =
      ((groupRows df (s.city, s.country)).filterMap (fun r => r.latitude)).head? ∧
    s.longitude =
      ((groupRows df (s.city, s.country)).filterMap (fun r => r.longitude)).head? := by
  unfold city_stats at hs
  rcases List.mem_map.mp hs with ⟨k, hk, rfl⟩
  simp only [csAt, Prod.mk.eta]
  refine ⟨?_, trivial, trivial⟩
  rcases List.mem_map.mp (mem_sortedKeys.mp hk) with ⟨r, hr, hrk⟩
  refine List.ne_nil_of_mem (show r ∈ groupRows df k from ?_)
  unfold groupRows
  rw [List.mem_filter]
  exact ⟨hr, by simp [hrk]⟩

/-- Witness for the amended C5 at the concrete group. -/
theorem claim5_witness :
    (csAt c5x ("P", "FR")).latitude =
      ((groupRows c5x ("P", "FR")).filterMap (fun r => r.latitude)).head? := by
  have hm : csAt c5x ("P", "FR") ∈ city_stats c5x := by
    unfold city_stats
    exact List.mem_map_of_mem _ (by decide)
  exact (claim5_amended c5x _ hm).2.1

/-- C9: the gap filler preserves the frame's length and leaves every
row untouched whose country is not exactly "Unknown", as well as every
row with unknown country but a missing latitude or longitude —
whatever the external geocoder returns. -/
theorem claim9_frame (geo : Rat → Rat → Option String) (df : List GeoRow)
    (i : Nat) (r : GeoRow) (hr : df[i]? = some r)
    (h : r.country ≠ "Unknown" ∨ r.latitude = none ∨ r.longitude = none) :
    (gap_filler_main geo df).length = df.length ∧
    (gap_filler_main geo df)[i]? = some r := by
  have hupd : updateRow geo r = r := by
    unfold updateRow
    by_cases hc : r.country = "Unknown"
    · rw [if_pos hc]
      rcases h with h | h | h
      · exact absurd hc h
      · rw [h]
      · rw [h]
        cases r.latitude <;> rfl
    · rw [if_neg hc]
  constructor
  · unfold gap_filler_main
    exact List.length_map _ _
  · unfold gap_filler_main
    rw [List.getElem?_map, hr]
    simp [hupd]

/-- Witness for C9: a frame with a known-country row, an unknown row
missing its latitude, and an unknown geocodable row; the known-country
row at index 0 is returned unchanged. -/
theorem claim9_witness :
    (gap_filler_main geoConst gdf).length = gdf.length ∧
    (gap_filler_main geoConst gdf)[0]? = some g1 :=
  claim9_frame geoConst gdf 0 g1 (by decide) (Or.inl (by decide))

/-- Counting lemma for the ranking join: each filtered row occurs in
the joined table once per rollup row sharing its city string. -/
theorem countP_mergeOnCity (left : List TourRecord) (right : List (String × Nat))
    (r : TourRecord) :
    List.countP (fun p => decide (p.1 = r)) (mergeOnCity left right) =
      (List.countP (fun x => decide (x = r)) left) *
        (List.countP (fun e => decide (e.1 = r.city)) right) := by
  unfold mergeOnCity
  induction left with
  | nil => simp
  | cons x t ih =>
    rw [List.flatMap_cons, List.countP_append, List.countP_map, List.countP_cons, ih]
    by_cases hx : x = r
    · subst hx
      have h1 : ((fun p : TourRecord × Nat => decide (p.1 = x)) ∘
          fun e : String × Nat => (x, e.2)) = fun _ => true := by
        funext e
        simp [Function.comp]
      rw [h1, List.countP_true, ← List.countP_eq_length_filter]
      simp
      ring
    · have h1 : ((fun p : TourRecord × Nat => decide (p.1 = r)) ∘
          fun e : String × Nat => (x, e.2)) = fun _ => false := by
        funext e
        simp [Function.comp, hx]
      rw [h1]
      simp [hx]

/-- C10: the ranking join in the Total Tours branch matches on the city
string alone, so every filtered row appears in the ranking output once
per rollup row sharing its city; on a frame with two distinct
(city, country) places sharing the city string "Y", the output has
four rows for two input rows. -/
theorem claim10_join_on_city :
    (∀ (asc : Bool) (df : List TourRecord) (r : TourRecord),
      List.countP (fun p => decide (p.1 = r)) (sorted_tours_total asc df) =
        (List.countP (fun x => decide (x = r)) df) *
          (List.countP (fun m => decide (m.city = r.city)) (city_metrics df))) ∧
    (sorted_tours_total false c10x).length = 4 ∧ c10x.length = 2 := by
  refine ⟨?_, by decide, by decide⟩
  intro asc df r
  unfold sorted_tours_total
  rw [(List.perm_insertionSort (pairRel asc) _).countP_eq, countP_mergeOnCity]
  congr 1
  unfold city_ordered
  rw [List.countP_map, (List.perm_insertionSort (cmRel asc) _).countP_eq]
  exact List.countP_congr (fun m _ => by simp [Function.comp])

/-- A filter whose predicate holds exactly once, and only on copies of
a fixed element, is that singleton. -/
theorem filter_eq_singleton_of {β : Type} (l : List β) (p : β → Bool) (a : β)
    (h1 : List.countP p l = 1) (h2 : ∀ x ∈ l, p x = true → x = a) :
    l.filter p = [a] := by
  have hlen : (l.filter p).length = 1 := by
    rw [← List.countP_eq_length_filter]
    exact h1
  rcases List.length_eq_one.mp hlen with ⟨x, hx⟩
  have hxm : x ∈ l.filter p := by
    rw [hx]
    exact List.mem_cons_self _ _
  rcases List.mem_filter.mp hxm with ⟨hxl, hpx⟩
  rw [hx, h2 x hxl hpx]

/-- A multiplicity-one count lemma for exact-equality predicates over
duplicate-free lists. -/
theorem countP_decide_eq_one {α : Type} [DecidableEq α] (l : List α) (a : α)
    (hnd : l.Nodup) (ha : a ∈ l) :
    List.countP (fun x => decide (x = a)) l = 1 := by
  induction l with
  | nil => cases ha
  | cons b t ih =>
    rcases List.nodup_cons.mp hnd with ⟨hb, ht⟩
    rw [List.countP_cons]
    by_cases hba : b = a
    · subst hba
      have hzero : List.countP (fun x => decide (x = b)) t = 0 := by
        rw [List.countP_eq_zero]
        intro x hx
        simp only [decide_eq_true_iff]
        rintro rfl
        exact hb hx
      simp [hzero]
    · have ha' : a ∈ t := by
        rcases List.mem_cons.mp ha with h | h
        · exact absurd h.symm hba
        · exact h
      simp [hba, ih ht ha']

/-- If each city string of the frame determines its country, a group
key whose city matches a row's city is that row's key. -/
theorem key_unique_of_city (df : List TourRecord)
    (huniq : ∀ r ∈ df, ∀ s ∈ df, r.city = s.city → r.country = s.country)
    {r : TourRecord} (hr : r ∈ df) {k : String × String}
    (hk : k ∈ sortedKeys df) (hck : k.1 = r.city) : k = keyOf r := by
  rcases List.mem_map.mp (mem_sortedKeys.mp hk) with ⟨s, hs, rfl⟩
  have hcity : s.city = r.city := hck
  have hcountry : s.country = r.country := huniq s hs r hr hcity
  unfold keyOf
  rw [hcity, hcountry]

/-- Under city-determines-country, exactly one group key carries a
given row's city string. -/
theorem countP_city_keys (df : List TourRecord)
    (huniq : ∀ r ∈ df, ∀ s ∈ df, r.city = s.city → r.country = s.country)
    {r : TourRecord} (hr : r ∈ df) :
    List.countP (fun k => decide (k.1 = r.city)) (sortedKeys df) = 1 := by
  have hmem : keyOf r ∈ sortedKeys df :=
    mem_sortedKeys.mpr (List.mem_map_of_mem _ hr)
  rw [List.countP_congr (q := fun k => decide (k = keyOf r)) ?_]
  · exact countP_decide_eq_one _ _ (nodup_sortedKeys df) hmem
  · intro k hk
    simp only [decide_eq_true_iff]
    constructor
    · exact key_unique_of_city df huniq hr hk
    · rintro rfl
      rfl

/-- Under city-determines-country, the city_ordered table has exactly
one entry matching a row's city, carrying that row's place total. -/
theorem city_ordered_filter_eq (df : List TourRecord)
    (huniq : ∀ r ∈ df, ∀ s ∈ df, r.city = s.city → r.country = s.country)
    {r : TourRecord} (hr : r ∈ df) :
    (city_ordered false df).filter (fun e => decide (e.1 = r.city)) =
      [(r.city, rowTotal df r)] := by
  apply filter_eq_singleton_of
  · unfold city_ordered
    rw [List.countP_map, (List.perm_insertionSort (cmRel false) _).countP_eq,
      city_metrics_eq, List.countP_map]
    have hfun : (((fun e : String × Nat => decide (e.1 = r.city)) ∘
        fun m : CityMetric => (m.city, m.total_tours)) ∘ metricAt df) =
        fun k => decide (k.1 = r.city) := funext fun k => rfl
    rw [hfun]
    exact countP_city_keys df huniq hr
  · intro e he hpe
    unfold city_ordered at he
    rcases List.mem_map.mp he with ⟨m, hm, rfl⟩
    have hm' : m ∈ city_metrics df :=
      (List.perm_insertionSort (cmRel false) _).mem_iff.mp hm
    rw [city_metrics_eq] at hm'
    rcases List.mem_map.mp hm' with ⟨k, hkk, rfl⟩
    have hck : k.1 = r.city := of_decide_eq_true hpe
    have hkey : k = keyOf r := key_unique_of_city df huniq hr hkk hck
    rw [hkey]
    rfl

/-- Under city-determines-country, the ranking join annotates each row
exactly once, with its own place's rollup total. -/
theorem mergeOnCity_city_ordered (df : List TourRecord)
    (huniq : ∀ r ∈ df, ∀ s ∈ df, r.city = s.city → r.country = s.country) :
    mergeOnCity df (city_ordered false df) =
      df.map (fun r => (r, rowTotal df r)) := by
  unfold mergeOnCity
  apply flatMap_eq_map
  intro r hr
  rw [city_ordered_filter_eq df huniq hr]
  rfl

/-- The rollup lookup of a present row's key returns its group size. -/
theorem placeTotal_eq (df : List TourRecord) {r : TourRecord} (hr : r ∈ df) :
    placeTotal df (keyOf r) = some (rowTotal df r) := by
  unfold placeTotal
  have hfil : (city_metrics df).filter
      (fun m => decide (m.city = (keyOf r).1) && decide (m.country = (keyOf r).2)) =
      [metricAt df (keyOf r)] := by
    rw [city_metrics_eq]
    refine filter_map_keys_eq _ (metricAt df) _ (keyOf r) ?_ (nodup_sortedKeys df)
      (mem_sortedKeys.mpr (List.mem_map_of_mem _ hr))
    intro x
    simp [metricAt, combinePC, combineTS, tcAt, csAt, ccAt, Bool.and_eq_true,
      Prod.ext_iff]
  rw [hfil]
  rfl

/-- C4 counterexample: descending Total Tours ranking on a frame where
the places ("X", "CA") (rollup total 1) and ("X", "US") (rollup total
2) share the city string "X".  The first output row belongs to the
lower-total place ("X", "CA") while a row of the higher-total place
("X", "US") appears at position 4 — a row of a lower-total place
precedes a row of a higher-total place, and the join also duplicated
every row. -/
theorem claim4_counterexample :
    (sorted_tours_total false c4x)[0]? = some (c4rA, 2) ∧
    (sorted_tours_total false c4x)[4]? = some (c4rB1, 1) ∧
    placeTotal c4x (keyOf c4rA) = some 1 ∧
    placeTotal c4x (keyOf c4rB1) = some 2 := by
  decide

/-- C4 amended: provided every city string of the filtered frame
belongs to a single country (so the city-keyed join is one-to-one),
the descending Total Tours ranking is sorted descending by the
annotated total, each row is annotated with its own place's rollup
total, and the output is a permutation of the filtered rows each
paired with its place total — every filtered row appears exactly once,
nothing else appears.  Each conjunct holds for every ordering of
equal-total rows, i.e. for every sort algorithm `sort_values` may use;
the original claim's tie-stability clause is not proved, because the
program's default quicksort is documented as not stable and so does
not guarantee it. -/
theorem claim4_amended (df : List TourRecord)
    (huniq : ∀ r ∈ df, ∀ s ∈ df, r.city = s.city → r.country = s.country) :
    List.Sorted (pairRel false) (sorted_tours_total false df) ∧
    (∀ p ∈ sorted_tours_total false df, placeTotal df (keyOf p.1) = some p.2) ∧
    (sorted_tours_total false df).Perm (df.map (fun r => (r, rowTotal df r))) := by
  refine ⟨List.sorted_insertionSort _ _, ?_, ?_⟩
  · intro p hp
    have hp' : p ∈ mergeOnCity df (city_ordered false df) :=
      (List.perm_insertionSort (pairRel false) _).mem_iff.mp hp
    rw [mergeOnCity_city_ordered df huniq] at hp'
    rcases List.mem_map.mp hp' with ⟨r, hr, rfl⟩
    exact placeTotal_eq df hr
  · have h1 : (sorted_tours_total false df).Perm
        (mergeOnCity df (city_ordered false df)) :=
      List.perm_insertionSort _ _
    rw [mergeOnCity_city_ordered df huniq] at h1
    exact h1

/-- Witness for the amended C4: on the collision-free frame, the
ranking output is a permutation of the three rows annotated with their
place totals. -/
theorem claim4_witness :
    (sorted_tours_total false c4w).Perm (c4w.map (fun r => (r, rowTotal c4w r))) :=
  (claim4_amended c4w (by decide)).2.2

end VMNA
